import Mathlib

/-!
Verification of the streaming stock quote server (Rust sources under src/).

Shallow embedding conventions: `f64` is modelled as `ℚ`, `u32`/`u64` as `ℕ`
with explicit `% 2^w` or saturation where overflow matters, Rust strings as
Lean `String` manipulated through structural character-list operations, maps
as association lists, and the stateful server loops as explicit
state-passing functions over the embedded state types.
-/

namespace StreamingStock

/-- Character-list split on a separator predicate; mirrors the splitting done
by Rust's `split` iterators (keeps empty fragments). -/
def chSplitAux (p : Char → Bool) : List Char → List Char → List (List Char)
  | [], acc => [acc.reverse]
  | c :: rest, acc =>
    if p c then acc.reverse :: chSplitAux p rest []
    else chSplitAux p rest (c :: acc)

/-- Trim leading and trailing whitespace from a character list, as Rust
`str::trim`. -/
def chTrim (l : List Char) : List Char :=
  ((l.dropWhile Char.isWhitespace).reverse.dropWhile Char.isWhitespace).reverse

/-- Substring containment test on character lists, as Rust `str::contains`. -/
def chContains : List Char → List Char → Bool
  | [], pat => decide (pat = [])
  | c :: rest, pat => pat.isPrefixOf (c :: rest) || chContains rest pat

/-- Rust `str::contains` on strings. -/
def strContains (s pat : String) : Bool := chContains s.data pat.data

/-- Rust `str::starts_with` on strings. -/
def strStarts (s pre : String) : Bool := pre.data.isPrefixOf s.data

/-- Rust `str::trim` on strings. -/
def strTrim (s : String) : String := ⟨chTrim s.data⟩

/-- Rust `str::to_uppercase`, modelled characterwise. -/
def strUpper (s : String) : String := ⟨s.data.map Char.toUpper⟩

/-- Rust `str::split_whitespace`: split on whitespace, dropping empty
fragments. -/
def splitWhitespaceStr (s : String) : List String :=
  ((chSplitAux Char.isWhitespace s.data []).filter (fun l => !l.isEmpty)).map
    (fun l => ⟨l⟩)

/-- Association-list lookup with string keys; models `HashMap::get`. -/
def lookupStr {α : Type} : List (String × α) → String → Option α
  | [], _ => none
  | (k0, v) :: rest, k => if k0 = k then some v else lookupStr rest k

/-- StockQuote from src/src/models.rs lines 5-11: ticker, price (f64 as ℚ),
volume (u32 as ℕ), timestamp (u64 milliseconds as ℕ). -/
structure StockQuote where
  ticker : String
  price : ℚ
  volume : ℕ
  timestamp : ℕ
deriving Repr, DecidableEq

/-- ClientConfig from src/src/models.rs lines 44-49: declared datagram
destination, requested tickers, and last heartbeat time (u64 seconds). -/
structure ClientConfig where
  udp_addr : String
  tickers : List String
  last_ping : ℕ
deriving Repr, DecidableEq

/-- Modulus of 64-bit machine integers. -/
def U64 : ℕ := 2 ^ 64

/-- Wrapping u64 subtraction `a - b` (release-mode semantics of the unchecked
subtraction), valid for `a, b < U64`. -/
def wrapSub64 (a b : ℕ) : ℕ := (U64 + a - b) % U64

/-- ClientConfig::is_stale from src/src/models.rs lines 71-74: computes the
unchecked u64 subtraction `now - last_ping` and compares with the timeout. -/
def ClientConfig.is_stale (c : ClientConfig) (now timeout_secs : ℕ) : Bool :=
  decide (timeout_secs < wrapSub64 now c.last_ping)

/-- Saturating cast from f64 to u32 (Rust `as` on floats saturates; negative
values clamp to 0, which `Int.toNat` matches). -/
def f64ToU32 (x : ℚ) : ℕ := min x.floor.toNat (2 ^ 32 - 1)

/-- Price update step from QuoteGenerator::start, src/src/generator.rs lines
129-134: `price *= 1 + change; if price < 1.0 { price = 1.0 }`. -/
def tickPrice (price delta : ℚ) : ℚ :=
  if price * (1 + delta) < 1 then 1 else price * (1 + delta)

/-- Volume computation from QuoteGenerator::start, src/src/generator.rs lines
136-145: `std_dev = (base * 0.3) as u32`, `vf = base + sample * std_dev`,
clamp at 100, cast to u32; with a burst the u32 is tripled (with u32 wrap). -/
def tickVolume (base : ℕ) (sample : ℚ) (burst : Bool) : ℕ :=
  let sd := f64ToU32 ((base : ℚ) * (3 / 10))
  let vf : ℚ := (base : ℚ) + sample * (sd : ℚ)
  let v := f64ToU32 (max vf 100)
  if burst then (v * 3) % 2 ^ 32 else v

/-- Randomness consumed by one generator tick for one ticker: the price delta
drawn from `[-volatility, volatility)`, the volume noise sample drawn from
`[-2, 2)`, and the 5%-probability burst flag. -/
structure TickRand where
  delta : ℚ
  normalSample : ℚ
  burst : Bool

/-- QuoteGenerator state from src/src/generator.rs lines 10-17: price book,
base volumes, volatility, and the per-ticker producer-end lists (producer ends
are identified by allocation number). -/
structure Generator where
  ticker_prices : List (String × ℚ)
  base_volumes : List (String × ℕ)
  volatility : ℚ
  ticker_senders : List (String × List ℕ)
deriving Repr, DecidableEq

/-- One generator tick from QuoteGenerator::start, src/src/generator.rs lines
122-176: for every ticker of the price book (in book order) update its price,
compute a volume, and build a quote stamped with the current time. Returns
the updated generator state and the quotes broadcast this tick. -/
def tickStep (g : Generator) (r : String → TickRand) (now : ℕ) :
    Generator × List StockQuote :=
  let upd := g.ticker_prices.map (fun kv => (kv.1, tickPrice kv.2 (r kv.1).delta))
  let quotes := upd.map (fun kv =>
    { ticker := kv.1
      price := kv.2
      volume := tickVolume ((lookupStr g.base_volumes kv.1).getD 1000)
        (r kv.1).normalSample (r kv.1).burst
      timestamp := now })
  ({ g with ticker_prices := upd }, quotes)

/-- QuoteGenerator::has_ticker from src/src/generator.rs lines 203-207:
uppercase the ticker and test membership in the price book. -/
def has_ticker (g : Generator) (t : String) : Bool :=
  (lookupStr g.ticker_prices (strUpper t)).isSome

/-- Command from src/src/models.rs lines 77-86. -/
inductive Command where
  | stream : String → List String → Command
  | ping : Command
  | stop : Command
  | help : Command
deriving Repr, DecidableEq

/-- CommandError from src/src/models.rs lines 88-100. -/
inductive CommandError where
  | invalidFormat : String → CommandError
  | invalidAddress : String → CommandError
  | noTickers : CommandError
  | invalidTicker : String → CommandError
  | ioError : String → CommandError
deriving Repr, DecidableEq

/-- Display text of each error, as generated by the thiserror attributes in
src/src/models.rs lines 88-100. -/
def CommandError.display : CommandError → String
  | .invalidFormat s => "Invalid command format: " ++ s
  | .invalidAddress s => "Invalid UDP address: " ++ s
  | .noTickers => "No tickers specified"
  | .invalidTicker s => "Invalid ticker: " ++ s
  | .ioError s => "IO error: " ++ s

/-- Ticker-list parsing from Command::parse, src/src/models.rs lines 130-134:
split the third token on commas, trim and uppercase each piece, drop empty
pieces. -/
def parseTickers (part : String) : List String :=
  (((chSplitAux (fun c => c == ',') part.data []).map
      (fun l => (chTrim l).map Char.toUpper)).filter
    (fun l => !l.isEmpty)).map (fun l => (⟨l⟩ : String))

/-- Command::parse from src/src/models.rs lines 103-149. -/
def Command.parse (input : String) : Except CommandError Command :=
  match splitWhitespaceStr input with
  | [] => .error (.invalidFormat "Empty command")
  | cmd :: rest =>
    match strUpper cmd with
    | "STREAM" =>
      match rest with
      | [] => .error (.invalidFormat "STREAM requires UDP address and tickers")
      | udp_addr :: rest2 =>
        if strStarts udp_addr "udp://" then
          match rest2 with
          | [] => .error .noTickers
          | tickerPart :: _ =>
            let tickers := parseTickers tickerPart
            if tickers.isEmpty then .error .noTickers
            else .ok (.stream udp_addr tickers)
        else .error (.invalidAddress "Address must start with udp://")
    | "PING" => .ok .ping
    | "STOP" => .ok .stop
    | "HELP" => .ok .help
    | _ => .error (.invalidFormat ("Unknown command: " ++ cmd))

/-- Association-list overwrite at an existing key. -/
def updateAssoc {α : Type} : List (String × α) → String → α → List (String × α)
  | [], _, _ => []
  | (k0, v) :: rest, k, w =>
    if k0 = k then (k0, w) :: rest else (k0, v) :: updateAssoc rest k w

/-- HashMap::insert semantics: overwrite an existing entry or append. -/
def insertAssoc {α : Type} (m : List (String × α)) (k : String) (v : α) :
    List (String × α) :=
  if (lookupStr m k).isSome then updateAssoc m k v else m ++ [(k, v)]

/-- HashMap::remove semantics. -/
def removeAssoc {α : Type} : List (String × α) → String → List (String × α)
  | [], _ => []
  | (k0, v) :: rest, k => if k0 = k then rest else (k0, v) :: removeAssoc rest k

/-- ClientManager::update_ping from src/src/client_manager.rs lines 61-71:
refresh `last_ping` of an existing client to the current time. -/
def updatePingReg (m : List (String × ClientConfig)) (k : String) (now : ℕ) :
    List (String × ClientConfig) :=
  match lookupStr m k with
  | some c => updateAssoc m k { c with last_ping := now }
  | none => m

/-- QuoteGenerator::subscribe_to_tickers from src/src/generator.rs lines
58-82: for each requested ticker (uppercased), when the ticker has a
subscriber list, allocate a fresh channel (identified by an allocation
counter), append its producer end to the list and collect the consumer end,
tagged here with its ticker; a ticker without a list is skipped with only a
warning. Returns the new subscriber lists, the consumer ends in collection
order, and the next fresh id. -/
def subscribeAux : List (String × List ℕ) → List String → ℕ →
    List (String × List ℕ) × List (String × ℕ) × ℕ
  | senders, [], fresh => (senders, [], fresh)
  | senders, t :: ts, fresh =>
    let tu := strUpper t
    match lookupStr senders tu with
    | some lst =>
      let p := subscribeAux (updateAssoc senders tu (lst ++ [fresh])) ts (fresh + 1)
      (p.1, (tu, fresh) :: p.2.1, p.2.2)
    | none => subscribeAux senders ts fresh

/-- Wrapper returning the updated generator, as the method does. -/
def subscribe_to_tickers (g : Generator) (tickers : List String) (fresh : ℕ) :
    Generator × List (String × ℕ) × ℕ :=
  let p := subscribeAux g.ticker_senders tickers fresh
  ({ g with ticker_senders := p.1 }, p.2.1, p.2.2)

/-- Server state seen by one control-channel command: the client registry of
the ClientManager, the generator, and the fresh channel counter. -/
structure TcpState where
  clients : List (String × ClientConfig)
  gen : Generator
  fresh : ℕ
deriving Repr, DecidableEq

/-- Help text written for the HELP command, src/src/tcp_server.rs lines
223-229. -/
def helpText : String :=
  "Available commands:\n" ++
  "STREAM udp://<host>:<port> <ticker1>,<ticker2>,... - " ++
  "Start streaming quotes to UDP address\n" ++
  "PING - Send ping to keep connection alive\n" ++
  "STOP - Stop current streaming\n" ++
  "HELP - Show this help\n\n" ++
  "Example:\n" ++
  "STREAM udp://127.0.0.1:34254 AAPL,TSLA,GOOGL\n"

/-- TcpServer::handle_command from src/src/tcp_server.rs lines 154-234.
Returns the new state, the reply lines written to the client, and whether
the read loop continues. The STREAM arm validates every ticker against the
price book before touching any state; PING refreshes liveness only for a
registered client; STOP removes the client (the advisory unsubscribe in
generator.rs lines 85-99 mutates nothing). -/
def handle_command (now : ℕ) (st : TcpState) (client_id : String) :
    Command → Except CommandError (TcpState × List String × Bool)
  | .stream udp_addr tickers =>
    match tickers.find? (fun t => !has_ticker st.gen t) with
    | some t => .error (.invalidTicker t)
    | none =>
      let config := ClientConfig.mk udp_addr tickers now
      let clients1 := insertAssoc st.clients client_id config
      let p := subscribe_to_tickers st.gen tickers st.fresh
      .ok (TcpState.mk clients1 p.1 p.2.2, ["STREAMING_STARTED\n"], true)
  | .ping =>
    if (lookupStr st.clients client_id).isSome then
      .ok ({ st with clients := updatePingReg st.clients client_id now },
        ["PONG\n"], true)
    else .ok (st, ["ERROR: Not streaming\n"], true)
  | .stop =>
    .ok ({ st with clients := removeAssoc st.clients client_id },
      ["STREAMING_STOPPED\n"], false)
  | .help => .ok (st, [helpText], true)

/-- One read-loop iteration of TcpServer::handle_client, src/src/tcp_server.rs
lines 110-146, on one input line: parse it, dispatch, and collect the reply
lines written back. A command error is reported as the error display text
followed by a newline; a parse error is reported the same way followed by
the help hint line; either way the state is unchanged. -/
def clientStep (now : ℕ) (st : TcpState) (client_id input : String) :
    TcpState × List String :=
  match Command.parse input with
  | .error e => (st, [e.display ++ "\n", "Type HELP for available commands\n"])
  | .ok c =>
    match handle_command now st client_id c with
    | .error e => (st, [e.display ++ "\n"])
    | .ok (st1, replies, _) => (st1, replies)

/-- Concrete one-ticker generator used by witnesses and counterexamples. -/
def g0 : Generator := Generator.mk [("AAPL", 2)] [("AAPL", 1000)] 1 [("AAPL", [])]

/-- Concrete server state used by witnesses and counterexamples. -/
def st0 : TcpState := TcpState.mk [] g0 0

lemma lookupStr_mem {α : Type} :
    ∀ (m : List (String × α)) (k : String) (v : α),
      lookupStr m k = some v → (k, v) ∈ m := by
  intro m
  induction m with
  | nil => intro k v h; simp [lookupStr] at h
  | cons e rest ih =>
    intro k v h
    obtain ⟨k0, w⟩ := e
    by_cases hk : k0 = k
    · subst hk
      have h' : w = v := by simpa [lookupStr] using h
      subst h'
      exact List.mem_cons_self _ _
    · simp only [lookupStr, if_neg hk] at h
      exact List.mem_cons_of_mem _ (ih k v h)

lemma ratFloor_eq_intFloor (x : ℚ) : x.floor = ⌊x⌋ := by
  rw [Rat.floor_def', Rat.floor_def]

lemma one_le_tickPrice (p d : ℚ) : 1 ≤ tickPrice p d := by
  rw [tickPrice]
  split
  · exact le_refl 1
  · next h => exact le_of_not_lt h

lemma tickVolume_ge (base : ℕ) (sample : ℚ) (burst : Bool)
    (hb : base ≤ 5000) (_hs1 : -2 ≤ sample) (hs2 : sample < 2) :
    100 ≤ tickVolume base sample burst := by
  rw [tickVolume]
  have hsd_le : f64ToU32 ((base : ℚ) * (3 / 10)) ≤ 1500 := by
    rw [f64ToU32, ratFloor_eq_intFloor]
    refine le_trans (min_le_left _ _) ?_
    have hx : (base : ℚ) * (3 / 10) ≤ (1500 : ℚ) := by
      have : (base : ℚ) ≤ 5000 := by exact_mod_cast hb
      nlinarith
    have hfl : ⌊(base : ℚ) * (3 / 10)⌋ ≤ (1500 : ℤ) := by
      have := Int.floor_mono hx
      simpa using this
    omega
  set sd := f64ToU32 ((base : ℚ) * (3 / 10)) with hsd
  have hvf_le : (base : ℚ) + sample * (sd : ℚ) ≤ 8000 := by
    have h1 : (base : ℚ) ≤ 5000 := by exact_mod_cast hb
    have h2 : (sd : ℚ) ≤ 1500 := by exact_mod_cast hsd_le
    have h3 : (0 : ℚ) ≤ (sd : ℚ) := by positivity
    nlinarith
  have hmax_le : max ((base : ℚ) + sample * (sd : ℚ)) 100 ≤ 8000 :=
    max_le hvf_le (by norm_num)
  have hmax_ge : (100 : ℚ) ≤ max ((base : ℚ) + sample * (sd : ℚ)) 100 :=
    le_max_right _ _
  have hv_ge : 100 ≤ f64ToU32 (max ((base : ℚ) + sample * (sd : ℚ)) 100) := by
    rw [f64ToU32, ratFloor_eq_intFloor]
    have hfl : (100 : ℤ) ≤ ⌊max ((base : ℚ) + sample * (sd : ℚ)) 100⌋ :=
      Int.le_floor.mpr (by exact_mod_cast hmax_ge)
    have : (100 : ℕ) ≤ ⌊max ((base : ℚ) + sample * (sd : ℚ)) 100⌋.toNat := by
      omega
    exact le_min this (by norm_num)
  have hv_le : f64ToU32 (max ((base : ℚ) + sample * (sd : ℚ)) 100) ≤ 8000 := by
    rw [f64ToU32, ratFloor_eq_intFloor]
    refine le_trans (min_le_left _ _) ?_
    have hfl : ⌊max ((base : ℚ) + sample * (sd : ℚ)) 100⌋ ≤ (8000 : ℤ) := by
      have := Int.floor_mono hmax_le
      simpa using this
    omega
  set v := f64ToU32 (max ((base : ℚ) + sample * (sd : ℚ)) 100) with hv
  cases burst with
  | false => simpa using hv_ge
  | true =>
    simp only [if_true]
    have hlt : v * 3 < 2 ^ 32 := by omega
    rw [Nat.mod_eq_of_lt hlt]
    omega

/-- C4: every quote produced by a generator tick has price at least 1.0,
volume at least 100, and a ticker that is a key of the price book. The
hypotheses record what the constructor guarantees: base volumes are at most
5000 (generator.rs lines 34-39) and the volume noise sample is drawn from
the range `[-2, 2)` (generator.rs line 138). -/
theorem c4_quote_invariants (g : Generator) (r : String → TickRand) (now : ℕ)
    (q : StockQuote)
    (hbase : ∀ e ∈ g.base_volumes, e.2 ≤ 5000)
    (hr : ∀ t, -2 ≤ (r t).normalSample ∧ (r t).normalSample < 2)
    (hq : q ∈ (tickStep g r now).2) :
    1 ≤ q.price ∧ 100 ≤ q.volume ∧ q.ticker ∈ g.ticker_prices.map Prod.fst := by
  rw [tickStep] at hq
  simp only [List.mem_map] at hq
  obtain ⟨kv, hkv, hqeq⟩ := hq
  obtain ⟨kv0, hkv0, hkveq⟩ := hkv
  subst hqeq
  refine ⟨?_, ?_, ?_⟩
  · rw [← hkveq]
    exact one_le_tickPrice _ _
  · have hble : (lookupStr g.base_volumes kv.1).getD 1000 ≤ 5000 := by
      cases hlk : lookupStr g.base_volumes kv.1 with
      | none => simp
      | some b =>
        have := hbase _ (lookupStr_mem _ _ _ hlk)
        simpa using this
    exact tickVolume_ge _ _ _ hble (hr kv.1).1 (hr kv.1).2
  · rw [← hkveq]
    simp only [List.mem_map]
    exact ⟨kv0, hkv0, rfl⟩

/-- C4 witness: a concrete one-ticker generator satisfies the hypotheses and
its tick quote satisfies the invariant. -/
theorem c4_witness :
    1 ≤ (StockQuote.mk "AAPL" 2 1000 7).price ∧
      100 ≤ (StockQuote.mk "AAPL" 2 1000 7).volume ∧
      (StockQuote.mk "AAPL" 2 1000 7).ticker ∈
        (Generator.mk [("AAPL", 2)] [("AAPL", 1000)] (1 / 100) [("AAPL", [])]
          ).ticker_prices.map Prod.fst :=
  c4_quote_invariants
    (Generator.mk [("AAPL", 2)] [("AAPL", 1000)] (1 / 100) [("AAPL", [])])
    (fun _ => TickRand.mk 0 0 false) 7 (StockQuote.mk "AAPL" 2 1000 7)
    (by decide) (fun _ => by norm_num) (by
      norm_num [tickStep, tickPrice, tickVolume, f64ToU32, lookupStr,
        ratFloor_eq_intFloor]
      decide)

/-- C10: ClientConfig::is_stale computes the unchecked u64 subtraction
`now - last_ping`, so under the precondition `last_ping ≤ now` it returns
exactly `now - last_ping > timeout`; when `last_ping` exceeds `now`, the
wrapped subtraction it computes is not the mathematical difference
`now - last_ping`, so the staleness check is not total. -/
theorem c10_is_stale_precondition (c : ClientConfig) (now timeout : ℕ)
    (hn : now < U64) (hl : c.last_ping < U64) :
    (c.last_ping ≤ now →
      c.is_stale now timeout = decide (timeout < now - c.last_ping)) ∧
    (now < c.last_ping →
      (wrapSub64 now c.last_ping : ℤ) ≠ (now : ℤ) - (c.last_ping : ℤ)) := by
  constructor
  · intro h
    have hw : wrapSub64 now c.last_ping = now - c.last_ping := by
      rw [wrapSub64]
      have h2 : U64 + now - c.last_ping = U64 + (now - c.last_ping) := by omega
      rw [h2, Nat.add_mod_left]
      exact Nat.mod_eq_of_lt (by omega)
    rw [ClientConfig.is_stale, hw]
  · intro h
    have h1 : (0 : ℤ) ≤ (wrapSub64 now c.last_ping : ℤ) := Int.natCast_nonneg _
    omega

/-- C10 witness: with `last_ping = 40 ≤ now = 100` the staleness check agrees
with the intended comparison. -/
theorem c10_witness :
    (ClientConfig.mk "udp://127.0.0.1:9" [] 40).is_stale 100 50 =
      decide ((50 : ℕ) < 100 - 40) :=
  (c10_is_stale_precondition (ClientConfig.mk "udp://127.0.0.1:9" [] 40)
    100 50 (by decide) (by decide)).1 (by decide)

/-- C2 counterexample: the reply actually written for a STREAM naming the
unknown ticker NOPE is the bare error display `Invalid ticker: NOPE\n`; it
does not begin with the prefix `ERROR: ` and is not the line the claim
requires. -/
theorem c2_counterexample :
    (clientStep 0 st0 "127.0.0.1:50000" "STREAM udp://127.0.0.1:34256 NOPE").2 =
      ["Invalid ticker: NOPE\n"] ∧
    strStarts "Invalid ticker: NOPE\n" "ERROR: " = false ∧
    (clientStep 0 st0 "127.0.0.1:50000" "STREAM udp://127.0.0.1:34256 NOPE").2 ≠
      ["ERROR: Invalid ticker: NOPE\n"] := by
  refine ⟨rfl, rfl, ?_⟩
  intro h
  have : ("Invalid ticker: NOPE\n" : String) = "ERROR: Invalid ticker: NOPE\n" := by
    have h0 := h
    rw [show (clientStep 0 st0 "127.0.0.1:50000"
      "STREAM udp://127.0.0.1:34256 NOPE").2 = ["Invalid ticker: NOPE\n"] from rfl] at h0
    exact List.head_eq_of_cons_eq h0
  simp at this

/-- C2 amended: every command-error reply line is the error display text
followed by a newline, with no `ERROR: ` prefix; a STREAM naming an unknown
ticker T is answered with exactly `Invalid ticker: T\n`; a parse error is
answered with its display plus newline followed by the help hint line. -/
theorem c2_amended_error_replies (now : ℕ) (st : TcpState) (cid input : String) :
    (∀ e, Command.parse input = .error e →
      (clientStep now st cid input).2 =
        [e.display ++ "\n", "Type HELP for available commands\n"]) ∧
    (∀ udp_addr tickers t0, Command.parse input = .ok (.stream udp_addr tickers) →
      tickers.find? (fun t => !has_ticker st.gen t) = some t0 →
      (clientStep now st cid input).2 = ["Invalid ticker: " ++ t0 ++ "\n"]) := by
  constructor
  · intro e he
    rw [clientStep, he]
  · intro ua tk t0 hok hfind
    rw [clientStep, hok]
    simp [handle_command, hfind, CommandError.display]

/-- C2 witness: the amended statement evaluated on an unknown command and on
a STREAM with an unknown ticker. -/
theorem c2_witness :
    (clientStep 0 st0 "c" "FLY").2 =
      [CommandError.display (.invalidFormat "Unknown command: FLY") ++ "\n",
        "Type HELP for available commands\n"] ∧
    (clientStep 0 st0 "c" "STREAM udp://127.0.0.1:34256 NOPE").2 =
      ["Invalid ticker: " ++ "NOPE" ++ "\n"] :=
  ⟨(c2_amended_error_replies 0 st0 "c" "FLY").1
      (.invalidFormat "Unknown command: FLY") rfl,
    (c2_amended_error_replies 0 st0 "c" "STREAM udp://127.0.0.1:34256 NOPE").2
      "udp://127.0.0.1:34256" ["NOPE"] "NOPE" rfl rfl⟩

/-- C7: a STREAM command naming at least one ticker absent from the price
book fails with InvalidTicker (on the first absent ticker in request order),
and the client-handler step leaves the server state — client registry and
subscription registry included — exactly as it was. -/
theorem c7_stream_unknown_ticker_no_partial_state (now : ℕ) (st : TcpState)
    (cid udp_addr : String) (tickers : List String)
    (h : ∃ t ∈ tickers, has_ticker st.gen t = false) :
    (∃ t0 ∈ tickers, has_ticker st.gen t0 = false ∧
      handle_command now st cid (.stream udp_addr tickers) =
        .error (.invalidTicker t0)) ∧
    ∀ input, Command.parse input = .ok (.stream udp_addr tickers) →
      (clientStep now st cid input).1 = st := by
  have hsome : (tickers.find? (fun t => !has_ticker st.gen t)).isSome := by
    rw [List.find?_isSome]
    obtain ⟨t, ht, hft⟩ := h
    exact ⟨t, ht, by simp [hft]⟩
  obtain ⟨t0, hfind⟩ := Option.isSome_iff_exists.mp hsome
  have ht0mem : t0 ∈ tickers := List.mem_of_find?_eq_some hfind
  have ht0f : has_ticker st.gen t0 = false := by
    have := List.find?_some hfind
    simpa using this
  constructor
  · exact ⟨t0, ht0mem, ht0f, by simp [handle_command, hfind]⟩
  · intro input hin
    rw [clientStep, hin]
    simp [handle_command, hfind]

/-- C7 witness: a concrete STREAM with the unknown ticker NOPE leaves the
concrete state unchanged. -/
theorem c7_witness :
    (clientStep 0 st0 "c" "STREAM udp://127.0.0.1:1 NOPE").1 = st0 :=
  (c7_stream_unknown_ticker_no_partial_state 0 st0 "c" "udp://127.0.0.1:1"
    ["NOPE"] ⟨"NOPE", by decide, by decide⟩).2
    "STREAM udp://127.0.0.1:1 NOPE" rfl

/-- C8 counterexample: requesting the single unknown ticker NOPE returns no
consumer end at all, so the returned list is shorter than the request. -/
theorem c8_counterexample :
    ((subscribe_to_tickers g0 ["NOPE"] 0).2.1).length = 0 ∧
      (["NOPE"] : List String).length = 1 := ⟨rfl, rfl⟩

lemma lookupStr_updateAssoc {α : Type} (m : List (String × α)) (k : String)
    (w : α) (k' : String) :
    (lookupStr (updateAssoc m k w) k').isSome = (lookupStr m k').isSome := by
  induction m with
  | nil => simp [updateAssoc, lookupStr]
  | cons e rest ih =>
    obtain ⟨k0, v⟩ := e
    by_cases h1 : k0 = k
    · subst h1
      by_cases h2 : k0 = k' <;> simp [updateAssoc, lookupStr, h2]
    · by_cases h2 : k0 = k'
      · subst h2
        simp [updateAssoc, lookupStr, h1, ih]
      · simp [updateAssoc, lookupStr, h1, h2, ih]

lemma subscribeAux_fst (senders : List (String × List ℕ))
    (tickers : List String) (fresh : ℕ)
    (h : ∀ t ∈ tickers, (lookupStr senders (strUpper t)).isSome = true) :
    ((subscribeAux senders tickers fresh).2.1).map Prod.fst =
      tickers.map strUpper := by
  induction tickers generalizing senders fresh with
  | nil => simp [subscribeAux]
  | cons t ts ih =>
    have ht := h t (List.mem_cons_self _ _)
    obtain ⟨lst, hlst⟩ := Option.isSome_iff_exists.mp ht
    have hrest : ∀ t' ∈ ts,
        (lookupStr (updateAssoc senders (strUpper t) (lst ++ [fresh]))
          (strUpper t')).isSome = true := by
      intro t' ht'
      rw [lookupStr_updateAssoc]
      exact h t' (List.mem_cons_of_mem _ ht')
    rw [subscribeAux]
    simp only [hlst]
    simpa using ih _ (fresh + 1) hrest

/-- C8 amended: when every requested ticker (after uppercasing) has a
subscriber list in the registry — which TcpServer::handle_command guarantees
by validating tickers first — subscribe returns exactly one consumer end per
requested ticker, in request order, the i-th consumer end draining the i-th
requested ticker; a requested ticker without a subscriber list is silently
skipped, so in general the result can be shorter than the request. -/
theorem c8_amended_subscribe_order (g : Generator) (tickers : List String)
    (fresh : ℕ)
    (h : ∀ t ∈ tickers, (lookupStr g.ticker_senders (strUpper t)).isSome = true) :
    ((subscribe_to_tickers g tickers fresh).2.1).map Prod.fst =
      tickers.map strUpper := by
  rw [subscribe_to_tickers]
  exact subscribeAux_fst g.ticker_senders tickers fresh h

/-- C8 witness: subscribing to the one existing ticker yields exactly one
consumer end tagged with that ticker. -/
theorem c8_witness :
    ((subscribe_to_tickers g0 ["AAPL"] 0).2.1).map Prod.fst =
      (["AAPL"] : List String).map strUpper :=
  c8_amended_subscribe_order g0 ["AAPL"] 0 (by decide)

/-- Socket address of a received datagram: IP text and source port. -/
structure SocketAddr where
  ip : String
  port : ℕ
deriving Repr, DecidableEq

/-- Textual form of a socket address, as Rust formats a SocketAddr. -/
def SocketAddr.text (a : SocketAddr) : String := a.ip ++ ":" ++ Nat.repr a.port

/-- Fallback scan of the ping handler, src/src/client_manager.rs lines
123-144: walk the registry in order and refresh the first entry whose id
contains the source IP, replying with one PONG; when nothing matches, the
registry is unchanged and nothing is sent. -/
def scanRefresh (src : SocketAddr) (now : ℕ) :
    List (String × ClientConfig) →
      List (String × ClientConfig) × List (SocketAddr × String)
  | [] => ([], [])
  | (id, cfg) :: rest =>
    if strContains id src.ip then
      ((id, { cfg with last_ping := now }) :: rest, [(src, "PONG")])
    else
      let p := scanRefresh src now rest
      ((id, cfg) :: p.1, p.2)

/-- One received datagram processed by ClientManager::start_ping_handler,
src/src/client_manager.rs lines 105-148: if the trimmed payload is PING,
form the textual client id from the source address; an exact-id match is
refreshed and answered with PONG; otherwise the fallback scan runs; any
other payload is logged and discarded. Returns the updated registry and the
datagrams sent (destination, payload). -/
def pingStep (registry : List (String × ClientConfig)) (src : SocketAddr)
    (payload : String) (now : ℕ) :
    List (String × ClientConfig) × List (SocketAddr × String) :=
  if strTrim payload = "PING" then
    match lookupStr registry src.text with
    | some _ => (updatePingReg registry src.text now, [(src, "PONG")])
    | none => scanRefresh src now registry
  else (registry, [])

/-- Concrete client configuration for witnesses and counterexamples. -/
def cfgA : ClientConfig := ClientConfig.mk "udp://127.0.0.1:40000" ["AAPL"] 0

/-- C3 counterexample: a PING datagram from a source that matches no client
in the registry (here: the empty registry) produces no PONG at all, not
exactly one. -/
theorem c3_counterexample :
    (pingStep [] (SocketAddr.mk "127.0.0.1" 54321) "PING" 0).2 = [] ∧
    (pingStep [] (SocketAddr.mk "127.0.0.1" 54321) "PING" 0).2.length ≠ 1 :=
  ⟨rfl, by decide⟩

lemma scanRefresh_sends (src : SocketAddr) (now : ℕ) :
    ∀ registry : List (String × ClientConfig),
      (scanRefresh src now registry).2 =
        if registry.any (fun e => strContains e.1 src.ip) then [(src, "PONG")]
        else [] := by
  intro registry
  induction registry with
  | nil => simp [scanRefresh]
  | cons e rest ih =>
    obtain ⟨id, cfg⟩ := e
    by_cases hc : strContains id src.ip
    · simp [scanRefresh, hc]
    · have hc' : strContains id src.ip = false := by simpa using hc
      simp only [scanRefresh, hc', Bool.false_eq_true, if_false, ih,
        List.any_cons, Bool.false_or]

/-- C3 amended: a PING datagram is answered with exactly one PONG to its
source if and only if the registry has an exact-id match for the source
address or some entry whose id contains the source IP; a PING from a source
matching no client produces no PONG. -/
theorem c3_amended_pong_iff_match (registry : List (String × ClientConfig))
    (src : SocketAddr) (payload : String) (now : ℕ)
    (h : strTrim payload = "PING") :
    (((lookupStr registry src.text).isSome = true ∨
        registry.any (fun e => strContains e.1 src.ip) = true) →
      (pingStep registry src payload now).2 = [(src, "PONG")]) ∧
    ((lookupStr registry src.text = none ∧
        registry.any (fun e => strContains e.1 src.ip) = false) →
      (pingStep registry src payload now).2 = []) := by
  constructor
  · intro hm
    rw [pingStep, if_pos h]
    cases hlk : lookupStr registry src.text with
    | some c => rfl
    | none =>
      rcases hm with hm | hm
      · rw [hlk] at hm; simp at hm
      · simp [scanRefresh_sends, hm]
  · intro ⟨h1, h2⟩
    rw [pingStep, if_pos h, h1]
    simp [scanRefresh_sends, h2]

/-- C3 witness: a registered client gets its PONG, an unknown source gets
none. -/
theorem c3_witness :
    (pingStep [("127.0.0.1:54321", cfgA)] (SocketAddr.mk "127.0.0.1" 54321)
        " PING " 5).2 =
      [(SocketAddr.mk "127.0.0.1" 54321, "PONG")] ∧
    (pingStep [("10.0.0.9:2", cfgA)] (SocketAddr.mk "127.0.0.1" 54321)
        "PING" 5).2 = [] :=
  ⟨(c3_amended_pong_iff_match [("127.0.0.1:54321", cfgA)]
      (SocketAddr.mk "127.0.0.1" 54321) " PING " 5 rfl).1 (Or.inl rfl),
    (c3_amended_pong_iff_match [("10.0.0.9:2", cfgA)]
      (SocketAddr.mk "127.0.0.1" 54321) "PING" 5 rfl).2 ⟨rfl, rfl⟩⟩

/-- C6 counterexample: a PING from 127.0.0.1 with no exact-id match
refreshes the entry with id `x127.0.0.1:9` — an id that contains but does
not begin with the source IP — contradicting the claim that no entry whose
id does not begin with that IP is refreshed. -/
theorem c6_counterexample :
    (pingStep [("x127.0.0.1:9", cfgA)] (SocketAddr.mk "127.0.0.1" 54321)
        "PING" 7).1 =
      [("x127.0.0.1:9", ClientConfig.mk "udp://127.0.0.1:40000" ["AAPL"] 7)] ∧
    strStarts "x127.0.0.1:9" "127.0.0.1" = false := ⟨rfl, rfl⟩

lemma scanRefresh_first (src : SocketAddr) (now : ℕ) :
    ∀ registry : List (String × ClientConfig),
      registry.any (fun e => strContains e.1 src.ip) = true →
      ∃ pre id cfg suf,
        registry = pre ++ (id, cfg) :: suf ∧
        (∀ e ∈ pre, strContains e.1 src.ip = false) ∧
        strContains id src.ip = true ∧
        (scanRefresh src now registry).1 =
          pre ++ (id, { cfg with last_ping := now }) :: suf := by
  intro registry
  induction registry with
  | nil => intro hany; simp at hany
  | cons e rest ih =>
    intro hany
    obtain ⟨id0, cfg0⟩ := e
    by_cases hc : strContains id0 src.ip
    · exact ⟨[], id0, cfg0, rest, rfl, by simp, hc, by simp [scanRefresh, hc]⟩
    · have hrest : rest.any (fun e => strContains e.1 src.ip) = true := by
        simpa [hc] using hany
      obtain ⟨pre, id, cfg, suf, he, hpre, hcid, hres⟩ := ih hrest
      refine ⟨(id0, cfg0) :: pre, id, cfg, suf, by rw [he]; rfl, ?_, hcid, ?_⟩
      · intro e he'
        rcases List.mem_cons.mp he' with h | h
        · rw [h]; simpa using hc
        · exact hpre e h
      · simp [scanRefresh, hc, hres]

/-- C6 amended: when the PING source has no exact-id match but some registry
entry's id contains (as a substring, not necessarily as a prefix) the source
IP, the receiver refreshes exactly the first such entry — every earlier
entry does not contain the IP and stays unchanged, everything after it stays
unchanged. -/
theorem c6_amended_contains_refresh (registry : List (String × ClientConfig))
    (src : SocketAddr) (payload : String) (now : ℕ)
    (h1 : strTrim payload = "PING") (h2 : lookupStr registry src.text = none)
    (h3 : registry.any (fun e => strContains e.1 src.ip) = true) :
    ∃ pre id cfg suf,
      registry = pre ++ (id, cfg) :: suf ∧
      (∀ e ∈ pre, strContains e.1 src.ip = false) ∧
      strContains id src.ip = true ∧
      (pingStep registry src payload now).1 =
        pre ++ (id, { cfg with last_ping := now }) :: suf := by
  rw [pingStep, if_pos h1, h2]
  exact scanRefresh_first src now registry h3

/-- C6 witness: with one non-matching entry before the matching one, the
second entry is the one refreshed. -/
theorem c6_witness :
    ∃ pre id cfg suf,
      ([("10.0.0.9:2", cfgA), ("x127.0.0.1:9", cfgA)] :
          List (String × ClientConfig)) = pre ++ (id, cfg) :: suf ∧
      (∀ e ∈ pre, strContains e.1 "127.0.0.1" = false) ∧
      strContains id "127.0.0.1" = true ∧
      (pingStep [("10.0.0.9:2", cfgA), ("x127.0.0.1:9", cfgA)]
          (SocketAddr.mk "127.0.0.1" 54321) "PING" 7).1 =
        pre ++ (id, { cfg with last_ping := 7 }) :: suf :=
  c6_amended_contains_refresh
    [("10.0.0.9:2", cfgA), ("x127.0.0.1:9", cfgA)]
    (SocketAddr.mk "127.0.0.1" 54321) "PING" 7 rfl rfl rfl

/-- Rendered JSON member: field name in quotes, colon, rendered value. -/
def renderField (f : String × String) : String :=
  "\"" ++ f.1 ++ "\":" ++ f.2

/-- Render a JSON object from its rendered members. -/
def renderObj (fields : List (String × String)) : String :=
  "\x7b" ++ String.intercalate "," (fields.map renderField) ++ "\x7d"

/-- Decimal text of a rational number, standing in for the f64 rendering of
serde_json, which is outside the embedding. -/
def renderQ (x : ℚ) : String :=
  if x.den = 1 then x.num.repr else x.num.repr ++ "/" ++ x.den.repr

/-- Modelled from the spec: `StockQuote::to_json` is called at
src/src/udp_sender.rs line 81 but is defined nowhere under src/ (models.rs
only carries the unused pipe-separated `to_string`). Spec sections 3 and 6
say a quote is serialized for the wire as one JSON object with exactly the
four fields ticker, price, volume, timestamp and nothing else; this is that
object's member list. -/
def quoteJsonFields (q : StockQuote) : List (String × String) :=
  [("ticker", "\"" ++ q.ticker ++ "\""), ("price", renderQ q.price),
    ("volume", Nat.repr q.volume), ("timestamp", Nat.repr q.timestamp)]

/-- Modelled from the spec: the JSON wire form of a quote. -/
def StockQuote.to_json (q : StockQuote) : String := renderObj (quoteJsonFields q)

/-- Drain task body from UdpSender::start, src/src/udp_sender.rs lines
74-106: for each quote read from the consumer end, serialize it and send one
datagram; a send error increments the cumulative error count and the task
stops once the count exceeds five; a success does not reset the count. The
input pairs each queued quote with its send outcome; the result is the list
of quotes actually processed, each with its outcome. -/
def drainLoop : List (StockQuote × Bool) → ℕ → List (StockQuote × Bool)
  | [], _ => []
  | (q, ok) :: rest, errs =>
    if ok then (q, true) :: drainLoop rest errs
    else if errs + 1 > 5 then [(q, false)]
    else (q, false) :: drainLoop rest (errs + 1)

/-- Datagram payloads handed to send_to by a drain task, in send order. -/
def drainPayloads (inputs : List (StockQuote × Bool)) (errs : ℕ) :
    List String :=
  (drainLoop inputs errs).map (fun x => StockQuote.to_json x.1)

/-- Quotes whose datagram send succeeded, in send order. -/
def drainSentQuotes (inputs : List (StockQuote × Bool)) (errs : ℕ) :
    List StockQuote :=
  ((drainLoop inputs errs).filter (fun x => x.2)).map Prod.fst

lemma drainLoop_sublist :
    ∀ (inputs : List (StockQuote × Bool)) (errs : ℕ),
      List.Sublist (drainLoop inputs errs) inputs := by
  intro inputs
  induction inputs with
  | nil => intro errs; exact List.Sublist.refl _
  | cons x rest ih =>
    intro errs
    obtain ⟨q, ok⟩ := x
    cases ok with
    | true => simpa [drainLoop] using (ih errs).cons₂ (q, true)
    | false =>
      rw [drainLoop]
      by_cases h5 : errs + 1 > 5
      · simp only [if_neg Bool.false_ne_true, if_pos h5]
        exact (List.nil_sublist rest).cons₂ (q, false)
      · simp only [if_neg Bool.false_ne_true, if_neg h5]
        exact (ih (errs + 1)).cons₂ (q, false)

/-- C1: every datagram payload a drain task hands to the socket is the JSON
serialization of the corresponding queued quote: one JSON object whose
member list is exactly ticker, price, volume, timestamp and nothing else. -/
theorem c1_json_payload (inputs : List (StockQuote × Bool)) (errs : ℕ)
    (p : String) (hp : p ∈ drainPayloads inputs errs) :
    ∃ q : StockQuote, q ∈ inputs.map Prod.fst ∧ p = StockQuote.to_json q ∧
      (quoteJsonFields q).map Prod.fst =
        ["ticker", "price", "volume", "timestamp"] := by
  rw [drainPayloads] at hp
  obtain ⟨x, hx, hpx⟩ := List.mem_map.mp hp
  refine ⟨x.1, ?_, hpx.symm, rfl⟩
  exact List.mem_map_of_mem Prod.fst ((drainLoop_sublist inputs errs).subset hx)

/-- Concrete quote for witnesses and counterexamples. -/
def qA : StockQuote := StockQuote.mk "AAPL" 2 1000 7

/-- C1 witness: the one payload sent for a one-quote queue is the JSON form
of that quote with exactly the four members. -/
theorem c1_witness :
    ∃ q : StockQuote, q ∈ ([(qA, true)].map Prod.fst) ∧
      StockQuote.to_json qA = StockQuote.to_json q ∧
      (quoteJsonFields q).map Prod.fst =
        ["ticker", "price", "volume", "timestamp"] :=
  c1_json_payload [(qA, true)] 0 (StockQuote.to_json qA)
    (List.mem_singleton.mpr rfl)

/-- The drain-task error policy as the spec words it, for comparison: five
consecutive send errors terminate the task, and a successful send resets the
consecutive count. -/
def drainLoopSpecModel : List (StockQuote × Bool) → ℕ → List (StockQuote × Bool)
  | [], _ => []
  | (q, ok) :: rest, consec =>
    if ok then (q, true) :: drainLoopSpecModel rest 0
    else if consec + 1 ≥ 5 then [(q, false)]
    else (q, false) :: drainLoopSpecModel rest (consec + 1)

/-- C5 counterexample: after five consecutive send errors the code's drain
task does NOT terminate — it still processes the following quote (six items
processed in total), while under the claimed five-consecutive-errors policy
it would have stopped at the fifth item. -/
theorem c5_counterexample :
    (drainLoop [(qA, false), (qA, false), (qA, false), (qA, false),
      (qA, false), (qA, true)] 0).length = 6 ∧
    (drainLoopSpecModel [(qA, false), (qA, false), (qA, false), (qA, false),
      (qA, false), (qA, true)] 0).length = 5 := ⟨rfl, rfl⟩

lemma getLast?_cons_of_ne_nil {α : Type} (a : α) (l : List α) (h : l ≠ []) :
    (a :: l).getLast? = l.getLast? := by
  cases l with
  | nil => exact absurd rfl h
  | cons b t => exact List.getLast?_cons_cons

lemma drainLoop_split :
    ∀ (inputs : List (StockQuote × Bool)) (errs : ℕ), errs ≤ 5 →
      ∃ pre suf, inputs = pre ++ suf ∧ drainLoop inputs errs = pre ∧
        errs + pre.countP (fun x => !x.2) ≤ 6 ∧
        (suf ≠ [] → errs + pre.countP (fun x => !x.2) = 6 ∧
          ∃ q, pre.getLast? = some (q, false)) := by
  intro inputs
  induction inputs with
  | nil =>
    intro errs he
    exact ⟨[], [], rfl, rfl, by simp; omega, by simp⟩
  | cons x rest ih =>
    intro errs he
    obtain ⟨q, ok⟩ := x
    cases ok with
    | true =>
      obtain ⟨pre, suf, h1, h2, h3, h4⟩ := ih errs he
      refine ⟨(q, true) :: pre, suf, by rw [h1]; rfl, ?_, ?_, ?_⟩
      · rw [drainLoop, if_pos rfl, h2]
      · simpa [List.countP_cons] using h3
      · intro hsuf
        obtain ⟨hc, qlast, hlast⟩ := h4 hsuf
        have hpre : pre ≠ [] := by
          intro hnil
          rw [hnil] at hlast
          simp at hlast
        refine ⟨by simpa [List.countP_cons] using hc, qlast, ?_⟩
        rw [getLast?_cons_of_ne_nil _ _ hpre]
        exact hlast
    | false =>
      by_cases h5 : errs + 1 > 5
      · have he5 : errs = 5 := by omega
        refine ⟨[(q, false)], rest, rfl, ?_, ?_, ?_⟩
        · rw [drainLoop]
          simp only [if_neg Bool.false_ne_true, if_pos h5]
        · simp [List.countP_cons, he5]
        · intro _
          exact ⟨by simp [List.countP_cons, he5], q, rfl⟩
      · have he' : errs + 1 ≤ 5 := by omega
        obtain ⟨pre, suf, h1, h2, h3, h4⟩ := ih (errs + 1) he'
        refine ⟨(q, false) :: pre, suf, by rw [h1]; rfl, ?_, ?_, ?_⟩
        · rw [drainLoop]
          simp only [if_neg Bool.false_ne_true, if_neg h5]
          rw [h2]
        · simp only [List.countP_cons]
          simp
          omega
        · intro hsuf
          obtain ⟨hc, qlast, hlast⟩ := h4 hsuf
          have hpre : pre ≠ [] := by
            intro hnil
            rw [hnil] at hlast
            simp at hlast
          constructor
          · simp only [List.countP_cons]
            simp
            omega
          · refine ⟨qlast, ?_⟩
            rw [getLast?_cons_of_ne_nil _ _ hpre]
            exact hlast

/-- C5 amended: the drain task terminates after six cumulative send errors —
the counter is never reset by a successful send. The processed items are a
prefix of the queued items holding at most six errors; when the whole queue
holds at most five errors every queued quote is processed (individual errors
do not abort the task), and when the task does stop early it stops exactly
on its sixth error. -/
theorem c5_amended_six_cumulative (inputs : List (StockQuote × Bool)) :
    ∃ pre suf, inputs = pre ++ suf ∧ drainLoop inputs 0 = pre ∧
      pre.countP (fun x => !x.2) ≤ 6 ∧
      (suf ≠ [] → pre.countP (fun x => !x.2) = 6 ∧
        ∃ q, pre.getLast? = some (q, false)) := by
  have h := drainLoop_split inputs 0 (by omega)
  simpa using h

/-- Repeated generator ticks of the loop in QuoteGenerator::start,
src/src/generator.rs lines 117-198, starting at tick index i for n ticks:
tick j consumes the randomness r (i + j) and the clock reading
clock (i + j). Returns the per-tick broadcast quote lists. -/
def genTicks (r : ℕ → String → TickRand) (clock : ℕ → ℕ) :
    Generator → ℕ → ℕ → List (List StockQuote)
  | _, _, 0 => []
  | g, i, n + 1 =>
    (tickStep g (r i) (clock i)).2 ::
      genTicks r clock (tickStep g (r i) (clock i)).1 (i + 1) n

/-- FIFO content of one (client, ticker) subscription channel over a tick
sequence: the quotes generated for that ticker in generation order — the
crossbeam unbounded channel of generator.rs line 68 preserves send order,
and the drain thread of udp_sender.rs line 80 reads it in order. -/
def channelFor (t : String) (ticks : List (List StockQuote)) : List StockQuote :=
  (ticks.map (fun qs => qs.filter (fun q => q.ticker == t))).flatten

lemma channelFor_cons (t : String) (l : List StockQuote)
    (ls : List (List StockQuote)) :
    channelFor t (l :: ls) =
      l.filter (fun q => q.ticker == t) ++ channelFor t ls := by
  simp [channelFor]

lemma tickStep_timestamp (g : Generator) (rr : String → TickRand) (now : ℕ)
    (q : StockQuote) (hq : q ∈ (tickStep g rr now).2) : q.timestamp = now := by
  rw [tickStep] at hq
  simp only [List.mem_map] at hq
  obtain ⟨kv, _, hqe⟩ := hq
  rw [← hqe]

lemma genTicks_timestamp (r : ℕ → String → TickRand) (clock : ℕ → ℕ)
    (t : String) :
    ∀ (n : ℕ) (g : Generator) (i : ℕ) (q : StockQuote),
      q ∈ channelFor t (genTicks r clock g i n) →
        ∃ k, i ≤ k ∧ q.timestamp = clock k := by
  intro n
  induction n with
  | zero =>
    intro g i q hq
    simp [genTicks, channelFor] at hq
  | succ m ih =>
    intro g i q hq
    rw [genTicks, channelFor_cons] at hq
    rcases List.mem_append.mp hq with hq | hq
    · have hmem := (List.mem_filter.mp hq).1
      exact ⟨i, le_refl i, tickStep_timestamp _ _ _ _ hmem⟩
    · obtain ⟨k, hk, hts⟩ := ih _ (i + 1) q hq
      exact ⟨k, by omega, hts⟩

lemma pairwise_map_const {α : Type} (l : List α) (f : α → ℕ) (c : ℕ)
    (h : ∀ x ∈ l, f x = c) : (l.map f).Pairwise (· ≤ ·) := by
  rw [List.pairwise_map]
  refine List.pairwise_of_forall_mem_list ?_
  intro a ha b hb
  rw [h a ha, h b hb]

lemma genTicks_pairwise (r : ℕ → String → TickRand) (clock : ℕ → ℕ)
    (t : String) (hm : Monotone clock) :
    ∀ (n : ℕ) (g : Generator) (i : ℕ),
      ((channelFor t (genTicks r clock g i n)).map
        StockQuote.timestamp).Pairwise (· ≤ ·) := by
  intro n
  induction n with
  | zero => intro g i; simp [genTicks, channelFor]
  | succ m ih =>
    intro g i
    rw [genTicks, channelFor_cons, List.map_append, List.pairwise_append]
    refine ⟨?_, ih _ _, ?_⟩
    · refine pairwise_map_const _ _ (clock i) ?_
      intro x hx
      exact tickStep_timestamp _ _ _ _ (List.mem_filter.mp hx).1
    · intro x hx y hy
      obtain ⟨qx, hqx, hxe⟩ := List.mem_map.mp hx
      obtain ⟨qy, hqy, hye⟩ := List.mem_map.mp hy
      obtain ⟨k, hk, hts⟩ := genTicks_timestamp r clock t m _ (i + 1) qy hqy
      rw [← hxe, ← hye,
        tickStep_timestamp _ _ _ _ (List.mem_filter.mp hqx).1, hts]
      exact hm (by omega)

lemma map_fst_zip_sublist {α β : Type} :
    ∀ (l : List α) (l' : List β),
      List.Sublist ((l.zip l').map Prod.fst) l
  | [], _ => by simp
  | a :: l, [] => by simp
  | a :: l, b :: l' => by
    simp only [List.zip_cons_cons, List.map_cons]
    exact (map_fst_zip_sublist l l').cons₂ a

/-- C9: for any subscriber of ticker t, the quotes its drain task delivers to
the destination socket carry monotonically non-decreasing timestamps, in the
order they are sent — quotes traverse the per-subscription FIFO and reach the
socket in generator order, and generation stamps ticks with a monotone clock
reading. -/
theorem c9_wire_timestamps_monotone (g : Generator) (r : ℕ → String → TickRand)
    (clock : ℕ → ℕ) (t : String) (n : ℕ) (outcomes : List Bool)
    (hm : Monotone clock) :
    ((drainSentQuotes ((channelFor t (genTicks r clock g 0 n)).zip outcomes)
        0).map StockQuote.timestamp).Pairwise (· ≤ ·) := by
  have hch := genTicks_pairwise r clock t hm n g 0
  have hsub1 := drainLoop_sublist
    ((channelFor t (genTicks r clock g 0 n)).zip outcomes) 0
  have hsub2 := List.filter_sublist (p := fun x => x.2)
    (drainLoop ((channelFor t (genTicks r clock g 0 n)).zip outcomes) 0)
  have hsub4 : List.Sublist
      (drainSentQuotes ((channelFor t (genTicks r clock g 0 n)).zip outcomes) 0)
      (channelFor t (genTicks r clock g 0 n)) := by
    rw [drainSentQuotes]
    exact ((hsub2.trans hsub1).map Prod.fst).trans (map_fst_zip_sublist _ _)
  exact List.Pairwise.sublist (hsub4.map StockQuote.timestamp) hch

/-- C9 witness: a two-tick run with the identity clock delivers timestamps in
non-decreasing order. -/
theorem c9_witness :
    ((drainSentQuotes ((channelFor "AAPL"
        (genTicks (fun _ _ => TickRand.mk 0 0 false) (fun k => k) g0 0 2)).zip
        [true, true]) 0).map StockQuote.timestamp).Pairwise (· ≤ ·) :=
  c9_wire_timestamps_monotone g0 (fun _ _ => TickRand.mk 0 0 false)
    (fun k => k) "AAPL" 2 [true, true] (fun _ _ h => h)

end StreamingStock
